import Mathlib

/-!
# Verification of the `RooAbsReal` evaluation core

A shallow embedding, in Lean 4, of the parts of
`roofit/roofitcore/src/RooAbsReal.cxx` that the specification's claims
are about:

* the recursive integral decomposition
  (`createIntegral` / `createIntObj` / `findInnerMostIntegration`),
* the linear error propagation (`getPropagatedError`),
* the batch-evaluation fallback adapter (`doEval`),
* the dirty-flag caching protocol (`getValV` / `traceEval` /
  `logEvalError`), and
* the debug consistency check (`_DEBUG_getVal`).

C++ `double` values are embedded as exact rationals (`ℚ`) except in the
error-propagation section, where square roots force real numbers (`ℝ`).
A `double` that can be NaN is embedded as `DVal` (a rational or NaN).
Fallible C++ code (thrown exceptions, functions returning owning null
pointers) is embedded with `Except`/`Option`: a thrown exception becomes
`Except.error`, a returned null pointer becomes `none`.

Helper code of the repository that is *not* part of the excerpted
sources (`RooAbsArg` accessors, `RooHelpers`, `RooAbsRealLValue`
binning lookup, `RooFitResult` covariance access) is modelled from the
specification's description; each such definition carries a doc comment
starting with `Modelled from the spec:`.
-/

namespace RooFitModel

/-- Operating mode of an expression node, `RooAbsArg::OperMode`:
`Auto` (normal dirty-flag caching), `AClean` ("always clean", never
recompute, serve the last force-set cached value), `ADirty` ("always
dirty", always recompute). -/
inductive OperMode where
  | auto
  | aclean
  | adirty
deriving DecidableEq

/-! ## Integral decomposition (`createIntegral`, `createIntObj`,
`findInnerMostIntegration`) -/

/-- The binning of an observable for one named range: either a fixed
interval `[lo, hi]`, or a parameterized range whose lower/upper bound
functions depend on the observables named in `loDeps` / `hiDeps`
(`RooAbsBinning::isParameterized`, `lowBoundFunc`, `highBoundFunc`).
For a parameterized binning, `loDeps`/`hiDeps` list the names of the
leaf observables of the bound functions, so that
`lowBoundFunc()->getObservables(&allObs, out)` is the restriction of
`loDeps` to the names occurring in `allObs`. -/
inductive Binning where
  | fixedRange (lo hi : ℚ)
  | parameterized (loDeps hiDeps : List String)
deriving DecidableEq

/-- An integration observable: its name, whether it is a real-valued
lvalue (`RooAbsRealLValue`), its named binnings and its default
binning. -/
structure Var where
  name : String
  isLValue : Bool
  binnings : List (String × Binning)
  defaultBinning : Binning
deriving DecidableEq

/-- Modelled from the spec: `RooAbsRealLValue::getBinning(rangeName,
false, true)` (the class is not part of the excerpted sources) resolves
the binning of the named range, falling back to the observable's
default binning when `rangeName` is null or no binning of that name
exists (the binning is then created on the fly as a clone of the
default one). -/
def getBinning (v : Var) (rangeName : Option String) : Binning :=
  match rangeName with
  | none => v.defaultBinning
  | some rn =>
    match v.binnings.lookup rn with
    | some b => b
    | none => v.defaultBinning

/-- The bound-function observables of `v` that occur in `allNames`:
the union of `lowBoundFunc()->getObservables(&allObs,·)` and
`highBoundFunc()->getObservables(&allObs,·)` in
`RooAbsReal::findInnerMostIntegration`, non-empty exactly when the
range parameterization of `v` overlaps the integrated observables.
Empty when `v` is not an lvalue or its binning is not parameterized. -/
def paramBoundObs (allNames : List String) (rangeName : Option String) (v : Var) : List String :=
  if v.isLValue then
    match getBinning v rangeName with
    | Binning.parameterized loDeps hiDeps =>
      loDeps.filter (fun n => allNames.contains n) ++ hiDeps.filter (fun n => allNames.contains n)
    | Binning.fixedRange _ _ => []
  else []

/-- `RooAbsCollection::remove`: drop from `l` the elements whose name
occurs in `names`. -/
def removeByNames (l : List Var) (names : List String) : List Var :=
  l.filter (fun v => ¬ names.contains v.name)

/-- The loop state of `RooAbsReal::findInnerMostIntegration`: the
lists (a) of integrated observables with fixed ranges, (b) of
integrated observables with parameterized ranges depending on other
integrated observables, and (c) of names of integrated observables
used in the definition of any parameterized range of an integrated
observable. -/
structure InnerScan where
  obsWithFixedRange : List Var
  obsWithParamRange : List Var
  obsServingAsRangeParams : List String

/-- One iteration of the `for (const auto aarg : allObs)` loop of
`RooAbsReal::findInnerMostIntegration`. -/
def innerScanStep (allNames : List String) (rangeName : Option String)
    (st : InnerScan) (aarg : Var) : InnerScan :=
  if (paramBoundObs allNames rangeName aarg).isEmpty then st
  else
    { obsWithFixedRange := st.obsWithFixedRange.filter (fun v => v.name ≠ aarg.name)
      obsWithParamRange := st.obsWithParamRange ++ [aarg]
      obsServingAsRangeParams :=
        st.obsServingAsRangeParams ++ paramBoundObs allNames rangeName aarg }

/-- `RooAbsReal::findInnerMostIntegration(allObs, innerObs, rangeName)`:
finds, in the set `allObs` of observables over which integration is
requested, the largest subset that can be integrated simultaneously
(returned; the C++ code fills the output set `innerObs`). -/
def findInnerMostIntegration (allObs : List Var) (rangeName : Option String) : List Var :=
  let allNames := allObs.map Var.name
  let scan := allObs.foldl (innerScanStep allNames rangeName)
    { obsWithFixedRange := allObs
      obsWithParamRange := []
      obsServingAsRangeParams := [] }
  removeByNames scan.obsWithFixedRange scan.obsServingAsRangeParams
    ++ removeByNames scan.obsWithParamRange scan.obsServingAsRangeParams

/-- Whether the `for` loop of `findInnerMostIntegration` classifies
`v` as an observable with a parameterized range depending on other
integrated observables (moving it from `obsWithFixedRange` to
`obsWithParamRange`). -/
def isClassified (allNames : List String) (rangeName : Option String) (v : Var) : Bool :=
  !(paramBoundObs allNames rangeName v).isEmpty

/-- The names of the integrated observables that serve as range
parameters of some integrated observable: the final contents of the
`obsServingAsRangeParams` set of `findInnerMostIntegration`. -/
def servingRangeParamNames (allObs : List Var) (rangeName : Option String) : List String :=
  allObs.flatMap (paramBoundObs (allObs.map Var.name) rangeName)

/-- Claim-side definition (the spec's words, for comparison with
`findInnerMostIntegration`): `v` "has a fixed range". -/
def specHasFixedRange (rangeName : Option String) (v : Var) : Bool :=
  match getBinning v rangeName with
  | Binning.fixedRange _ _ => true
  | Binning.parameterized _ _ => false

/-- Claim-side definition: the bound functions of `v`'s parameterized
range depend on at least one of the *other* variables still pending
integration (named in `allNames`). -/
def specDependsOnOtherPending (allNames : List String) (rangeName : Option String) (v : Var) : Bool :=
  match getBinning v rangeName with
  | Binning.fixedRange _ _ => false
  | Binning.parameterized loDeps hiDeps =>
    (loDeps ++ hiDeps).any (fun n => allNames.contains n && !(n == v.name))

/-- Claim-side definition: `v` is used as a range parameter of some
*other* pending variable (it appears among the bound-function
observables of another variable's parameterized range). -/
def specUsedAsRangeParam (allObs : List Var) (rangeName : Option String) (v : Var) : Bool :=
  allObs.any fun w =>
    !(w.name == v.name) &&
      match getBinning w rangeName with
      | Binning.fixedRange _ _ => false
      | Binning.parameterized loDeps hiDeps => (loDeps ++ hiDeps).contains v.name

/-- Claim-side definition (claim C1's words): the inner subset is the
union of (a) the fixed-range variables not used as any other pending
variable's range parameter and (b) the parameterized-range variables
whose bound functions depend on none of the other pending variables
and that are not used as any other pending variable's range
parameter. -/
def specInnerSubset (allObs : List Var) (rangeName : Option String) : List Var :=
  allObs.filter fun v =>
    (specHasFixedRange rangeName v
        || !(specDependsOnOtherPending (allObs.map Var.name) rangeName v))
      && !(specUsedAsRangeParam allObs rangeName v)

/-- The graph of expression nodes built by `createIntegral` /
`createIntObj`: the original function node, `RooRealIntegral` nodes
(integrand, integrated observables, normalization-set identity, range
name) and the `RooAddition` node summing per-range components (a
component is `none` when `createIntObj` returned a null pointer). -/
inductive IntObj where
  | func (name : String)
  | integral (integrand : IntObj) (innerSet : List Var) (nset : Option ℕ) (rangeName : Option String)
  | addition (components : List (Option IntObj))

/-- The `while(!iset.empty())` loop of `RooAbsReal::createIntObj`.
Each pass integrates the largest simultaneously-integrable inner
subset, wrapping the previous integral; only the innermost pass
receives the caller's normalization set (`nset = nullptr` afterwards).
An empty inner subset while observables remain pending is the
ill-defined-ranges failure: the function returns a null pointer,
embedded as `none`.  The loop runs at most `iset.length` passes (each
successful pass removes at least one pending observable), which the
explicit fuel argument makes structural; `createIntObj` supplies
`iset.length` as fuel. -/
def createIntObjLoop (rangeName : Option String) :
    ℕ → IntObj → Option ℕ → List Var → Option IntObj
  | _, integrand, _, [] => some integrand
  | 0, _, _, _ :: _ => none
  | fuel+1, integrand, nset, v :: vs =>
    let iset := v :: vs
    let innerSet := findInnerMostIntegration iset rangeName
    if innerSet.isEmpty then none
    else
      createIntObjLoop rangeName fuel (IntObj.integral integrand innerSet nset rangeName) none
        (removeByNames iset (innerSet.map Var.name))

/-- `RooAbsReal::createIntObj(iset, nset, cfg, rangeName)`: the actual
integral-object construction for a single range.  The trivial case of
an empty `iset` yields a direct integral node over the empty set.  The
`CACHEPARAMINT` interpolating-cache after-burner is omitted: the
modelled nodes carry no `CACHEPARAMINT` string attribute, so that
branch is never taken. -/
def createIntObj (funcName : String) (iset : List Var) (nset : Option ℕ)
    (rangeName : Option String) : Option IntObj :=
  if iset.isEmpty then some (IntObj.integral (IntObj.func funcName) iset nset rangeName)
  else createIntObjLoop rangeName iset.length (IntObj.func funcName) nset iset

/-- Construction-time failure of `createIntegral`: the C++ code throws
`std::invalid_argument` with a message built from the node's name, the
integration variables and the offending range string; the thrown
exception is embedded as this structured error value. -/
inductive IntError where
  | overlappingRanges (nodeName : String) (vars : List Var) (ranges : String)
deriving DecidableEq

/-- Modelled from the spec: whether the named ranges `r1` and `r2`
overlap for the requested variable `v` — their fixed intervals
intersect.  A range compared with itself (same name listed twice)
overlaps itself whenever its interval is non-degenerate. -/
def rangesOverlapFor (v : Var) (r1 r2 : String) : Bool :=
  match getBinning v (some r1), getBinning v (some r2) with
  | Binning.fixedRange lo1 hi1, Binning.fixedRange lo2 hi2 =>
    decide (lo1 < hi2) && decide (lo2 < hi1)
  | _, _ => false

/-- Modelled from the spec: `RooHelpers::checkIfRangesOverlap` (not
part of the excerpted sources) — the named ranges overlap for the
requested integration variables when, for some requested variable, the
ranges at two *distinct positions* of the token list intersect.  The
pairing is positional, not by name, so a range listed twice (the
spec's `"full,full"` example) is flagged as overlapping. -/
def checkIfRangesOverlap (iset : List Var) : List String → Bool
  | [] => false
  | t :: ts =>
    ts.any (fun u => iset.any fun v => rangesOverlapFor v t u)
      || checkIfRangesOverlap iset ts

/-- `RooAbsReal::createIntegral(iset, nset, cfg, rangeName)`: a null
or comma-free range name is the simple case handled by
`createIntObj`; a comma-separated list of ranges is first checked for
overlaps (failure: `std::invalid_argument`, embedded as
`Except.error`), then summed with a `RooAddition` node owning one
per-range component.  `strchr(rangeName, ',')` and the tokenization
`ROOT::Split(rangeName, ",")` are modelled on the character list of
the range string. -/
def createIntegral (funcName : String) (iset : List Var) (nset : Option ℕ)
    (rangeName : Option String) : Except IntError (Option IntObj) :=
  match rangeName with
  | none => Except.ok (createIntObj funcName iset nset none)
  | some rn =>
    if !(rn.toList.contains ',') then Except.ok (createIntObj funcName iset nset (some rn))
    else
      let tokens := (rn.toList.splitOn ',').map List.asString
      if checkIfRangesOverlap iset tokens then
        Except.error (IntError.overlappingRanges funcName iset rn)
      else
        Except.ok (some (IntObj.addition
          (tokens.map fun t => createIntObj funcName iset nset (some t))))

/-! ## Batch evaluation adapter (`doEval`) -/

/-- The observable state of one server node that `doEval` touches:
cached value (`_value`), operating mode, and the two dirty flags. -/
structure Server where
  value : ℚ
  operMode : OperMode
  valueDirty : Bool
  shapeDirty : Bool
deriving DecidableEq

/-- The per-event buffers of the evaluation context, aligned
positionally with the node's server list: `ctx.at(server)`.  An empty
list is an empty span (`serverValues.empty()`), meaning the server has
no per-event data and is left untouched. -/
abbrev Buffers := List (List ℚ)

/-- The first phase of `RooAbsReal::doEval`: every server with
non-empty batch data is switched into "always clean" operating mode
(`server->setOperMode(RooAbsArg::AClean)`), so that it returns its
last force-set cached value instead of recomputing.  `setOperMode` is
modelled from the spec as a plain mode assignment.  The snapshots held
in `ServerData` are the original `Server` records themselves (the
snapshot is taken before any mutation of the snapshotted fields). -/
def freezeServers : List Server → Buffers → List Server
  | [], _ => []
  | s :: ss, [] => s :: freezeServers ss []
  | s :: ss, b :: bs =>
    (if b.isEmpty then s else { s with operMode := OperMode.aclean }) :: freezeServers ss bs

/-- The inner `for (auto& serv : ourServers)` of the event loop:
force-set each buffered server's cached value to
`serv.batch[std::min(i, serv.batch.size()-1)]`
(`setCachedValue(·, false)`, modelled from the spec as a plain
assignment of the cached value), so a length-1 buffer is a constant
broadcast. -/
def loadEvent : List Server → Buffers → ℕ → List Server
  | [], _, _ => []
  | s :: ss, [], _ => s :: loadEvent ss [] 0
  | s :: ss, b :: bs, i =>
    (if b.isEmpty then s
     else { s with value := b.getD (min i (b.length - 1)) 0 }) :: loadEvent ss bs i

/-- The destructor of `RestoreStateRAII`: every server that had batch
data is restored to its snapshotted cached value, operating mode and
dirty flags (`setCachedValue(oldValue, true)` followed by
`setOperMode(oldOperMode)` and reassignment of `_valueDirty` /
`_shapeDirty`); servers without batch data were never snapshotted and
keep their current state. -/
def restoreServers : List Server → Buffers → List Server → List Server
  | c :: cs, b :: bs, o :: os => (if b.isEmpty then c else o) :: restoreServers cs bs os
  | cs, _, _ => cs

/-- The `for (std::size_t i=0; i < output.size(); ++i)` event loop of
`doEval`: at index `i` the buffered servers are loaded with event `i`
and the node's scalar `evaluate()` is invoked.  `eval` may fail
(`Except.error` models a C++ exception propagating out of
`evaluate()`), in which case the loop aborts with the servers in their
current (still frozen and loaded) state — the RAII restoration is
applied by `doEval` on every exit path. -/
def doEvalLoop {ε : Type} (buffers : Buffers) (eval : List Server → Except ε ℚ) :
    List Server → ℕ → ℕ → List ℚ → List Server × Except ε (List ℚ)
  | servers, _, 0, acc => (servers, Except.ok acc.reverse)
  | servers, i, k+1, acc =>
    let servers' := loadEvent servers buffers i
    match eval servers' with
    | Except.ok v => doEvalLoop buffers eval servers' (i+1) k (v :: acc)
    | Except.error e => (servers', Except.error e)

/-- `RooAbsReal::doEval(ctx)`: the batch-evaluation fallback for nodes
without a native vectorized evaluator.  Returns the final state of the
server list (after the unconditional `RestoreStateRAII` cleanup) and
either the output buffer of `n` evaluated values or the propagated
exception. -/
def doEval {ε : Type} (servers : List Server) (buffers : Buffers)
    (eval : List Server → Except ε ℚ) (n : ℕ) : List Server × Except ε (List ℚ) :=
  let run := doEvalLoop buffers eval (freezeServers servers buffers) 0 n []
  (restoreServers run.1 buffers servers, run.2)

/-- Verification-side relation: `cur` and `orig` are server lists of
the same shape that agree (as full records) at every position without
per-event batch data.  The batch adapter only ever touches buffered
servers, which this relation tracks. -/
def AgreesOffBuf : List Server → List Server → Buffers → Prop
  | [], [], _ => True
  | a :: as, b :: bs, [] => a = b ∧ AgreesOffBuf as bs []
  | a :: as, b :: bs, buf :: bufs => (buf.isEmpty = true → a = b) ∧ AgreesOffBuf as bs bufs
  | _, _, _ => False

/-- Claim-side definition (the spec's words, for comparison with
`doEval`): the per-event server values seen by a *scalar* evaluation
at event `i` — each server with a per-event buffer is set to
`buffer[min(i, buffer.length-1)]` of its buffer, every other server
keeps its current value. -/
def scalarEventValues : List Server → Buffers → ℕ → List ℚ
  | [], _, _ => []
  | s :: ss, [], _ => s.value :: scalarEventValues ss [] 0
  | s :: ss, b :: bs, i =>
    (if b.isEmpty then s.value else b.getD (min i (b.length - 1)) 0) :: scalarEventValues ss bs i

/-! ## Caching protocol (`getValV`, `traceEval`, `logEvalError`) -/

/-- A C++ `double` that can be NaN: either NaN or an exact value. -/
inductive DVal where
  | nan
  | fin (q : ℚ)
deriving DecidableEq

/-- `TMath::IsNaN`. -/
def DVal.isNaN : DVal → Bool
  | DVal.nan => true
  | DVal.fin _ => false

/-- Addition of a finite offset to a possibly-NaN value
(`_value + offset()`). -/
def DVal.addOffset : DVal → ℚ → DVal
  | DVal.nan, _ => DVal.nan
  | DVal.fin q, r => DVal.fin (q + r)

/-- `RooAbsReal::ErrorLoggingMode`. -/
inductive ErrorLoggingMode where
  | printErrors
  | collectErrors
  | countErrors
  | ignore
deriving DecidableEq

/-- The process-wide evaluation error log (the file-static
`EvalErrorData`): logging mode, error counter and, for `CollectErrors`
mode, the per-originator error list (modelled for the single
originating node of interest, so a plain list of messages).  Messages
printed through the message service are recorded in `printed`
(`PrintErrors` mode) and `debugPrinted` (the delayed overflow prints
of `CollectErrors` mode).  `inLogEvalError` is the static reentrancy
guard flag of `logEvalError`. -/
structure EvalErrorLog where
  mode : ErrorLoggingMode
  count : ℕ
  errorList : List String
  printed : List String
  debugPrinted : List String
  inLogEvalError : Bool
deriving DecidableEq

/-- `RooAbsReal::logEvalError(message, serverValueString)`: `Ignore`
mode drops the message, `CountErrors` only increments the counter,
then the reentrancy guard suppresses nested calls; `PrintErrors`
prints the error immediately; `CollectErrors` appends it to the
originator's list, printing and popping the oldest entry first when
the list already holds 2048 entries.  The guard flag is set on entry
and cleared before returning, so its net effect on the stored state is
nil (the suppression of *nested* calls is what it exists for). -/
def logEvalError (log : EvalErrorLog) (message : String) : EvalErrorLog :=
  if log.mode = ErrorLoggingMode.ignore then log
  else if log.mode = ErrorLoggingMode.countErrors then { log with count := log.count + 1 }
  else if log.inLogEvalError then log
  else if log.mode = ErrorLoggingMode.printErrors then
    { log with printed := log.printed ++ [message] }
  else -- CollectErrors
    if log.errorList.length ≥ 2048 then
      { log with
        debugPrinted := log.debugPrinted ++ [log.errorList.headD ""]
        errorList := log.errorList.tail ++ [message] }
    else { log with errorList := log.errorList ++ [message] }

/-- `RooAbsReal::traceEval`: invoke `evaluate()` (its result is the
`evalResult` argument; `evaluate()` is pure), log an evaluation error
when the result is NaN, and return the computed value unchanged —
evaluation errors are recorded, never thrown, so the function is
total.  The subsequent `isValidReal` warning branch is dead for the
base class (`RooAbsReal::isValidReal` always returns `true`). -/
def traceEval (evalResult : DVal) (log : EvalErrorLog) : DVal × EvalErrorLog :=
  if evalResult.isNaN then (evalResult, logEvalError log "function value is NAN")
  else (evalResult, log)

/-- The caching-relevant state of one expression node: cached value,
value-dirty flag, operating mode, the identity tag of the last-used
normalization set (`_lastNormSetId`), and the node's `offset()`
(zero for the base class, possibly non-zero for offsetting
subclasses). -/
structure NodeState where
  value : DVal
  valueDirty : Bool
  operMode : OperMode
  lastNormSetId : ℕ
  offsetVal : ℚ
deriving DecidableEq

/-- Modelled from the spec: `RooAbsArg::isValueDirtyAndClear` (not
part of the excerpted sources) — an `AlwaysClean` node never
recomputes, an `AlwaysDirty` node bypasses the cache and always
recomputes, an `Auto` node recomputes exactly when its dirty flag is
set, clearing the flag. -/
def isValueDirtyAndClear (s : NodeState) : Bool × NodeState :=
  match s.operMode with
  | OperMode.aclean => (false, s)
  | OperMode.adirty => (true, s)
  | OperMode.auto =>
    if s.valueDirty then (true, { s with valueDirty := false }) else (false, s)

/-- The result of a modelled `getValV` call: the returned value, the
node state and error log after the call, and the number of times the
call invoked `evaluate()`. -/
structure GetValResult where
  ret : DVal
  state : NodeState
  log : EvalErrorLog
  evalCount : ℕ
deriving DecidableEq

/-- `RooAbsReal::getValV(nset)`: update the normalization-set identity
tag when it changed (`setProxyNormSet` hook, modelled from the spec as
the identity update), recompute and cache via `traceEval` when the
value is dirty, and return the cached value, with the global offset
added when `hideOffset()` is set.  `evalResult` is the (pure) result
`evaluate()` would produce; `evalCount` counts how often `evaluate()`
was invoked by this call. -/
def getValV (s : NodeState) (log : EvalErrorLog) (nset : Option ℕ) (evalResult : DVal)
    (hideOffset : Bool) : GetValResult :=
  let s1 :=
    match nset with
    | some id => if id ≠ s.lastNormSetId then { s with lastNormSetId := id } else s
    | none => s
  let dc := isValueDirtyAndClear s1
  if dc.1 then
    let tr := traceEval evalResult log
    { ret := if hideOffset then tr.1.addOffset dc.2.offsetVal else tr.1
      state := { dc.2 with value := tr.1 }
      log := tr.2
      evalCount := 1 }
  else
    { ret := if hideOffset then dc.2.value.addOffset dc.2.offsetVal else dc.2.value
      state := dc.2
      log := log
      evalCount := 0 }

/-- Concrete node instance (AlwaysDirty mode) used by the theorems
below. -/
def adirtyNode : NodeState := ⟨DVal.fin 0, true, OperMode.adirty, 0, 0⟩

/-- Concrete node instance (dirty, Auto mode) used by the theorems
below. -/
def autoDirtyNode : NodeState := ⟨DVal.fin 0, true, OperMode.auto, 0, 0⟩

/-- Concrete empty error log (PrintErrors mode) used by the theorems
below. -/
def emptyPrintLog : EvalErrorLog := ⟨ErrorLoggingMode.printErrors, 0, [], [], [], false⟩

/-- Concrete empty error log (CollectErrors mode) used by the theorems
below. -/
def emptyCollectLog : EvalErrorLog := ⟨ErrorLoggingMode.collectErrors, 0, [], [], [], false⟩

/-! ## Debug consistency check (`_DEBUG_getVal`) -/

/-- The fatal cache-consistency failure thrown by `_DEBUG_getVal`
(`CachingError`). -/
inductive CachingErr where
  | mismatch
deriving DecidableEq

/-- `RooAbsReal::_DEBUG_getVal(normalisationSet)`: `fullEval` is the
value recomputed through the full dirty path (`getValV`), `cached` is
the node's `_value` after that call (served by the fast path).  The
returned value is the fast cached value when `_fast && !_inhibitDirty`
holds, the recomputed value otherwise.  A `CachingError` is thrown
(embedded as `Except.error`) when the returned value is finite and
`(ret != 0. ? (ret - fullEval)/ret : ret - fullEval) > 1.E-9`. -/
def debugGetVal (fast inhibitDirty : Bool) (cached fullEval : DVal) : Except CachingErr DVal :=
  let ret := if fast && !inhibitDirty then cached else fullEval
  match ret, fullEval with
  | DVal.fin r, DVal.fin f =>
    if (if r ≠ 0 then (r - f) / r else r - f) > 1 / 1000000000 then
      Except.error CachingErr.mismatch
    else Except.ok ret
  | _, _ => Except.ok ret

/-! ## Linear error propagation (`getPropagatedError`)

Embedded over `ℝ` because the algorithm takes square roots of
covariance entries.  The node's `getParameters(&nset, ·)` result is
the `params` field of `RNode`; `getVal(nset)` after a parameter change
is the pure `eval` function applied to the changed parameter list. -/

/-- `std::numeric_limits<double>::epsilon()`, the machine epsilon of
an IEEE-754 double. -/
noncomputable def dblEps : ℝ := 1 / 2 ^ 52

/-- One floated parameter of the fit result (`floatParsFinal()`
entry): final value and fitted error. -/
structure FitPar where
  name : String
  val : ℝ
  err : ℝ

/-- One parameter of the node (`allParamsInAbsReal` entry): current
value and legal range `[vmin, vmax]` (`getMin()` / `getMax()`). -/
structure NodePar where
  name : String
  val : ℝ
  vmin : ℝ
  vmax : ℝ

instance : Inhabited NodePar := ⟨⟨"", 0, 0, 0⟩⟩

/-- The node on which `getPropagatedError` is called: name, the
parameters it depends on, and its evaluation as a pure function of
those parameters. -/
structure RNode where
  name : String
  params : List NodePar
  eval : List NodePar → ℝ

/-- `rrv.setVal(x)` on the named parameter of a parameter list. -/
def setParamVal (params : List NodePar) (n : String) (x : ℝ) : List NodePar :=
  params.map fun q => if q.name = n then { q with val := x } else q

/-- Outcome of the `floatParsFinal()` scan of `getPropagatedError`:
either the early return of the node's own fitted error (the node *is*
a floated parameter of the fit result), or the selected parameter
sublist — each entry pairs the node-side parameter with its index in
`floatParsFinal()` (used to address the covariance matrix). -/
inductive ParamSelection where
  | ownError (e : ℝ)
  | selected (sel : List (NodePar × ℕ))

/-- The `for(auto * rrvFitRes : fr.floatParsFinal())` loop of
`RooAbsReal::getPropagatedError`, over the index-annotated fit
parameters: return the fit error directly when the node is the fit
parameter itself (name identity); strip parameters with (relatively)
zero error; ignore fit parameters the node does not depend on; throw
(`Except.error`, the C++ `std::runtime_error`) when the node-side
value has diverged from the fit result's value by more than 1% of the
uncertainty; collect the remaining parameters. -/
noncomputable def selectParamsAux (node : RNode) :
    List (ℕ × FitPar) → Except String ParamSelection
  | [] => Except.ok (ParamSelection.selected [])
  | (i, p) :: rest =>
    if p.name = node.name then Except.ok (ParamSelection.ownError p.err)
    else if p.err ≤ |p.val| * dblEps then selectParamsAux node rest
    else
      match node.params.find? (fun np => np.name == p.name) with
      | none => selectParamsAux node rest
      | some np =>
        if (1 / 100 : ℝ) * p.err < |np.val - p.val| then
          Except.error "getPropagatedError: the parameters of the RooAbsReal do not have the same values as in the fit result"
        else
          match selectParamsAux node rest with
          | Except.error e => Except.error e
          | Except.ok (ParamSelection.ownError e) => Except.ok (ParamSelection.ownError e)
          | Except.ok (ParamSelection.selected l) =>
            Except.ok (ParamSelection.selected ((np, i) :: l))

/-- `RooAbsReal::getPropagatedError(fr, nset)`: linear error
propagation.  `cov` is the fit result's covariance matrix, addressed
by `floatParsFinal()` indices.  `RooFitResult::reducedCovarianceMatrix`
is modelled from the spec as the covariance submatrix for exactly the
selected parameter subset.  The out-of-range warning for clipped
variations only prints; the final re-evaluation at the central values
has no effect in this pure embedding. -/
noncomputable def getPropagatedError (node : RNode) (frPars : List FitPar)
    (cov : ℕ → ℕ → ℝ) : Except String ℝ :=
  match selectParamsAux node frPars.enum with
  | Except.error e => Except.error e
  | Except.ok (ParamSelection.ownError e) => Except.ok e
  | Except.ok (ParamSelection.selected sel) =>
    let m := sel.length
    let V : ℕ → ℕ → ℝ :=
      if m = frPars.length then cov
      else fun a b => cov (sel.getD a default).2 (sel.getD b default).2
    let plusVar : List ℝ := (List.range m).map fun ivar =>
      let np := (sel.getD ivar default).1
      node.eval (setParamVal node.params np.name (min (np.val + Real.sqrt (V ivar ivar)) np.vmax))
    let minusVar : List ℝ := (List.range m).map fun ivar =>
      let np := (sel.getD ivar default).1
      node.eval (setParamVal node.params np.name (max (np.val - Real.sqrt (V ivar ivar)) np.vmin))
    let C : ℕ → ℕ → ℝ := fun i j =>
      if i ≤ j then V i j / Real.sqrt (V i i * V j j)
      else V j i / Real.sqrt (V j j * V i i)
    let F : ℕ → ℝ := fun j => (plusVar.getD j 0 - minusVar.getD j 0) * (1 / 2)
    Except.ok (Real.sqrt (∑ i ∈ Finset.range m, F i * ∑ j ∈ Finset.range m, C i j * F j))

/-- Claim-side definition: the fit parameters relevant to the node —
nonzero fitted uncertainty (relative to machine precision) and
depended on by the node — paired with the node-side parameter. -/
noncomputable def linearSelected (node : RNode) (frPars : List FitPar) :
    List (NodePar × ℕ) :=
  frPars.enum.filterMap fun ip =>
    if ip.2.err ≤ |ip.2.val| * dblEps then none
    else (node.params.find? (fun np => np.name == ip.2.name)).map fun np => (np, ip.1)

/-- Claim-side definition: the covariance submatrix for the selected
parameter subset. -/
noncomputable def covSub (cov : ℕ → ℕ → ℝ) (sel : List (NodePar × ℕ)) (a b : ℕ) : ℝ :=
  cov (sel.getD a default).2 (sel.getD b default).2

/-- Claim-side definition: `plus_i`, the node's value at the `i`-th
selected parameter's central value plus `sqrt(Cov_ii)`, clipped to the
parameter's legal range. -/
noncomputable def plusVariation (node : RNode) (V : ℕ → ℕ → ℝ)
    (sel : List (NodePar × ℕ)) (i : ℕ) : ℝ :=
  let np := (sel.getD i default).1
  node.eval (setParamVal node.params np.name (min (np.val + Real.sqrt (V i i)) np.vmax))

/-- Claim-side definition: `minus_i`, the node's value at the `i`-th
selected parameter's central value minus `sqrt(Cov_ii)`, clipped to
the parameter's legal range. -/
noncomputable def minusVariation (node : RNode) (V : ℕ → ℕ → ℝ)
    (sel : List (NodePar × ℕ)) (i : ℕ) : ℝ :=
  let np := (sel.getD i default).1
  node.eval (setParamVal node.params np.name (max (np.val - Real.sqrt (V i i)) np.vmin))

/-- Claim-side definition: `F_i = (plus_i − minus_i)/2`. -/
noncomputable def variationF (node : RNode) (V : ℕ → ℕ → ℝ)
    (sel : List (NodePar × ℕ)) (i : ℕ) : ℝ :=
  (plusVariation node V sel i - minusVariation node V sel i) / 2

/-- Claim-side definition: the correlation matrix
`C_ij = Cov_ij / sqrt(Cov_ii · Cov_jj)`. -/
noncomputable def corrMatrix (V : ℕ → ℕ → ℝ) (i j : ℕ) : ℝ :=
  V i j / Real.sqrt (V i i * V j j)

/-- Claim-side definition: the covariance matrix the algorithm reads —
the fit result's full covariance matrix when every floated parameter
was selected, its submatrix for exactly the selected parameter subset
otherwise. -/
noncomputable def covLinear (cov : ℕ → ℕ → ℝ) (frPars : List FitPar)
    (sel : List (NodePar × ℕ)) : ℕ → ℕ → ℝ :=
  if sel.length = frPars.length then cov else covSub cov sel

/-! ## Theorems -/

theorem innerScan_foldl (allNames : List String) (rangeName : Option String) (L : List Var)
    (st : InnerScan) :
    L.foldl (innerScanStep allNames rangeName) st =
      { obsWithFixedRange := st.obsWithFixedRange.filter
          (fun v => !((L.filter (isClassified allNames rangeName)).map Var.name).contains v.name)
        obsWithParamRange := st.obsWithParamRange ++ L.filter (isClassified allNames rangeName)
        obsServingAsRangeParams :=
          st.obsServingAsRangeParams ++ L.flatMap (paramBoundObs allNames rangeName) } := by
  induction L generalizing st with
  | nil => simp
  | cons a L ih =>
    rw [List.foldl_cons, ih]
    by_cases ha : isClassified allNames rangeName a = true
    · have hne : (paramBoundObs allNames rangeName a).isEmpty = false := by
        simpa [isClassified] using ha
      simp only [innerScanStep, hne, Bool.false_eq_true, if_false]
      simp only [List.filter_cons, ha, if_true, List.map_cons, List.flatMap_cons,
        InnerScan.mk.injEq]
      refine ⟨?_, by simp, by simp⟩
      rw [List.filter_filter]
      apply List.filter_congr
      intro x _
      simp only [List.contains_cons, Bool.not_or, Bool.and_comm, decide_not]
      rfl
    · have hne : (paramBoundObs allNames rangeName a).isEmpty = true := by
        simpa [isClassified] using ha
      simp only [innerScanStep, hne, if_true]
      have hpbo : paramBoundObs allNames rangeName a = [] := by
        simpa using hne
      simp [List.filter_cons, ha, hpbo]

theorem findInnerMostIntegration_eq_filters (allObs : List Var) (rangeName : Option String) :
    findInnerMostIntegration allObs rangeName =
      removeByNames
        (allObs.filter fun v =>
          !((allObs.filter (isClassified (allObs.map Var.name) rangeName)).map Var.name).contains
            v.name)
        (servingRangeParamNames allObs rangeName)
      ++ removeByNames (allObs.filter (isClassified (allObs.map Var.name) rangeName))
        (servingRangeParamNames allObs rangeName) := by
  simp only [findInnerMostIntegration]
  rw [innerScan_foldl]
  simp [servingRangeParamNames]

theorem mem_findInnerMostIntegration (allObs : List Var) (rangeName : Option String)
    (hnodup : (allObs.map Var.name).Nodup) (v : Var) :
    v ∈ findInnerMostIntegration allObs rangeName ↔
      v ∈ allObs ∧ v.name ∉ servingRangeParamNames allObs rangeName := by
  rw [findInnerMostIntegration_eq_filters]
  simp only [removeByNames, List.mem_append, List.mem_filter]
  constructor
  · rintro (⟨⟨hmem, -⟩, hns⟩ | ⟨⟨hmem, -⟩, hns⟩) <;>
      exact ⟨hmem, by simpa [List.elem_iff] using hns⟩
  · rintro ⟨hmem, hns⟩
    by_cases hcl : isClassified (allObs.map Var.name) rangeName v = true
    · exact Or.inr ⟨⟨hmem, hcl⟩, by simpa [List.elem_iff] using hns⟩
    · refine Or.inl ⟨⟨hmem, ?_⟩, by simpa [List.elem_iff] using hns⟩
      simp only [Bool.not_eq_true']
      by_contra hc
      simp only [Bool.not_eq_false] at hc
      have hmm : v.name ∈ (allObs.filter (isClassified (allObs.map Var.name) rangeName)).map Var.name := by
        simpa [List.elem_iff] using hc
      rcases List.mem_map.mp hmm with ⟨w, hwmem, hwname⟩
      rcases List.mem_filter.mp hwmem with ⟨hwAll, hwcl⟩
      have hwv : w = v := List.inj_on_of_nodup_map hnodup hwAll hmem hwname
      rw [hwv] at hwcl
      exact hcl hwcl


/-- Claim C1, counterexample: for pending variables `x` (parameterized
range with bounds depending on `y`) and `y` (fixed range), the code's
inner subset contains `x`, while the subset described by the claim
(`specInnerSubset`) does not: a parameterized-range variable whose
bounds depend on another still-pending variable *is* integrated in the
innermost pass (that is how the recursion resolves `x` before `y`),
contrary to the claim's last clause. -/
theorem findInnerMostIntegration_spec_mismatch :
    (⟨"x", true, [], Binning.parameterized ["y"] ["y"]⟩ : Var) ∈
        findInnerMostIntegration
          [⟨"x", true, [], Binning.parameterized ["y"] ["y"]⟩,
           ⟨"y", true, [], Binning.fixedRange 0 1⟩] none
      ∧ (⟨"x", true, [], Binning.parameterized ["y"] ["y"]⟩ : Var) ∉
        specInnerSubset
          [⟨"x", true, [], Binning.parameterized ["y"] ["y"]⟩,
           ⟨"y", true, [], Binning.fixedRange 0 1⟩] none := by
  decide

/-- Claim C1 (amended): for every set of pending integration variables
(with the name-uniqueness invariant of `RooArgSet`) and range name,
the inner subset chosen by one pass of `findInnerMostIntegration`
consists of exactly the pending variables not used as a range
parameter of any pending parameterized-range variable; in particular a
parameterized-range variable whose bounds depend on other pending
variables is still placed in the inner subset, provided it does not
itself serve as a range parameter. -/
theorem findInnerMostIntegration_characterization (allObs : List Var)
    (rangeName : Option String) (hnodup : (allObs.map Var.name).Nodup) (v : Var) :
    v ∈ findInnerMostIntegration allObs rangeName ↔
      v ∈ allObs ∧ v.name ∉ servingRangeParamNames allObs rangeName :=
  mem_findInnerMostIntegration allObs rangeName hnodup v

/-- Witness for `findInnerMostIntegration_characterization` at a
concrete input. -/
theorem findInnerMostIntegration_characterization_witness :
    (([⟨"x", true, [], Binning.parameterized ["y"] ["y"]⟩,
       ⟨"y", true, [], Binning.fixedRange 0 1⟩] : List Var).map Var.name).Nodup
    ∧ ((⟨"x", true, [], Binning.parameterized ["y"] ["y"]⟩ : Var) ∈
        findInnerMostIntegration
          [⟨"x", true, [], Binning.parameterized ["y"] ["y"]⟩,
           ⟨"y", true, [], Binning.fixedRange 0 1⟩] none ↔
      (⟨"x", true, [], Binning.parameterized ["y"] ["y"]⟩ : Var) ∈
          [⟨"x", true, [], Binning.parameterized ["y"] ["y"]⟩,
           ⟨"y", true, [], Binning.fixedRange 0 1⟩]
        ∧ "x" ∉ servingRangeParamNames
          [⟨"x", true, [], Binning.parameterized ["y"] ["y"]⟩,
           ⟨"y", true, [], Binning.fixedRange 0 1⟩] none) :=
  ⟨by decide,
    findInnerMostIntegration_characterization _ none (by decide)
      ⟨"x", true, [], Binning.parameterized ["y"] ["y"]⟩⟩

/-- Claim C2: a `createIntegral` call whose range name lists multiple
comma-separated ranges that overlap for the requested integration
variables fails with the explicit overlapping-ranges error (the C++
code throws `std::invalid_argument` after printing the message, which
identifies the node and the offending ranges — the `IntError` value
carries them), and never returns an integral object: the overlapping
ranges are not silently summed. -/
theorem createIntegral_overlapping_ranges (funcName : String) (iset : List Var)
    (nset : Option ℕ) (rn : String) (hcomma : rn.toList.contains ',' = true)
    (hover : checkIfRangesOverlap iset ((rn.toList.splitOn ',').map List.asString) = true) :
    createIntegral funcName iset nset (some rn) =
        Except.error (IntError.overlappingRanges funcName iset rn)
      ∧ ∀ o, createIntegral funcName iset nset (some rn) ≠ Except.ok o := by
  have hc : ',' ∈ rn.data := by simpa using hcomma
  have h : createIntegral funcName iset nset (some rn) =
      Except.error (IntError.overlappingRanges funcName iset rn) := by
    simp only [createIntegral, String.toList] at hover ⊢
    simp [hc, hover]
  refine ⟨h, fun o hok => ?_⟩
  rw [h] at hok
  cases hok

/-- Witness for `createIntegral_overlapping_ranges`: the spec's
concrete scenario — a range `full = [0,3]` spanning the variable's
whole domain, requested twice as `"full,full"` — is rejected as
overlapping, not silently summed. -/
theorem createIntegral_overlapping_ranges_witness :
    ("full,full".toList.contains ',' = true)
    ∧ checkIfRangesOverlap
        [⟨"x", true, [("full", Binning.fixedRange 0 3)], Binning.fixedRange 0 3⟩]
        (("full,full".toList.splitOn ',').map List.asString) = true
    ∧ (createIntegral "f"
        [⟨"x", true, [("full", Binning.fixedRange 0 3)], Binning.fixedRange 0 3⟩]
          none (some "full,full") =
          Except.error (IntError.overlappingRanges "f"
            [⟨"x", true, [("full", Binning.fixedRange 0 3)], Binning.fixedRange 0 3⟩]
            "full,full")
        ∧ ∀ o, createIntegral "f"
            [⟨"x", true, [("full", Binning.fixedRange 0 3)], Binning.fixedRange 0 3⟩]
            none (some "full,full") ≠ Except.ok o) :=
  ⟨by decide, by decide,
    createIntegral_overlapping_ranges "f" _ none "full,full" (by decide) (by decide)⟩

theorem findInner_pair_resolvable (x y : Var) (lox hix : List String)
    (hxy : x.name ≠ y.name) (hlv : x.isLValue = true)
    (hxb : x.defaultBinning = Binning.parameterized lox hix)
    (lo hi : ℚ) (hyb : y.defaultBinning = Binning.fixedRange lo hi)
    (hymem : y.name ∈ lox ∨ y.name ∈ hix)
    (hxlo : x.name ∉ lox) (hxhi : x.name ∉ hix) :
    findInnerMostIntegration [x, y] none = [x] := by
  have hpx : paramBoundObs [x.name, y.name] none x =
      lox.filter (fun n => ([x.name, y.name] : List String).contains n)
        ++ hix.filter (fun n => ([x.name, y.name] : List String).contains n) := by
    simp [paramBoundObs, getBinning, hlv, hxb]
  have hyA : ([x.name, y.name] : List String).contains y.name = true := by
    simp [List.elem_iff]
  have hymem' : y.name ∈ paramBoundObs [x.name, y.name] none x := by
    rw [hpx]
    rcases hymem with h | h
    · exact List.mem_append_left _ (List.mem_filter.mpr ⟨h, hyA⟩)
    · exact List.mem_append_right _ (List.mem_filter.mpr ⟨h, hyA⟩)
  have hclx : isClassified [x.name, y.name] none x = true := by
    simp only [isClassified, Bool.not_eq_true']
    exact List.isEmpty_eq_false_iff_exists_mem.mpr ⟨y.name, hymem'⟩
  have hpy : paramBoundObs [x.name, y.name] none y = [] := by
    cases h : y.isLValue <;> simp [paramBoundObs, getBinning, hyb, h]
  have hcly : isClassified [x.name, y.name] none y = false := by
    simp [isClassified, hpy]
  have hxs : x.name ∉ paramBoundObs [x.name, y.name] none x := by
    rw [hpx]
    intro hmem
    rcases List.mem_append.mp hmem with h | h
    · exact hxlo (List.mem_filter.mp h).1
    · exact hxhi (List.mem_filter.mp h).1
  rw [findInnerMostIntegration_eq_filters]
  simp only [servingRangeParamNames, List.map_cons, List.map_nil, List.flatMap_cons,
    List.flatMap_nil, List.append_nil, hpy, removeByNames, List.filter_cons, List.filter_nil,
    hclx, hcly]
  simp [List.contains_cons, beq_iff_eq, hxy, Ne.symm hxy, hymem', hxs, List.elem_iff]

theorem findInner_single_fixed (y : Var) (lo hi : ℚ)
    (hyb : y.defaultBinning = Binning.fixedRange lo hi) :
    findInnerMostIntegration [y] none = [y] := by
  have hpy : paramBoundObs [y.name] none y = [] := by
    cases h : y.isLValue <;> simp [paramBoundObs, getBinning, hyb, h]
  have hcly : isClassified [y.name] none y = false := by
    simp [isClassified, hpy]
  rw [findInnerMostIntegration_eq_filters]
  simp only [servingRangeParamNames, List.map_cons, List.map_nil, List.flatMap_cons,
    List.flatMap_nil, List.append_nil, hpy, removeByNames, List.filter_cons, List.filter_nil,
    hcly]
  simp

theorem findInner_pair_circular (x y : Var) (lox hix loy hiy : List String)
    (hlvx : x.isLValue = true) (hlvy : y.isLValue = true)
    (hxb : x.defaultBinning = Binning.parameterized lox hix)
    (hyb : y.defaultBinning = Binning.parameterized loy hiy)
    (hymem : y.name ∈ lox ∨ y.name ∈ hix)
    (hxmem : x.name ∈ loy ∨ x.name ∈ hiy) :
    findInnerMostIntegration [x, y] none = [] := by
  have hpx : paramBoundObs [x.name, y.name] none x =
      lox.filter (fun n => ([x.name, y.name] : List String).contains n)
        ++ hix.filter (fun n => ([x.name, y.name] : List String).contains n) := by
    simp [paramBoundObs, getBinning, hlvx, hxb]
  have hpy : paramBoundObs [x.name, y.name] none y =
      loy.filter (fun n => ([x.name, y.name] : List String).contains n)
        ++ hiy.filter (fun n => ([x.name, y.name] : List String).contains n) := by
    simp [paramBoundObs, getBinning, hlvy, hyb]
  have hyA : ([x.name, y.name] : List String).contains y.name = true := by
    simp [List.elem_iff]
  have hxA : ([x.name, y.name] : List String).contains x.name = true := by
    simp [List.elem_iff]
  have hymem' : y.name ∈ paramBoundObs [x.name, y.name] none x := by
    rw [hpx]
    rcases hymem with h | h
    · exact List.mem_append_left _ (List.mem_filter.mpr ⟨h, hyA⟩)
    · exact List.mem_append_right _ (List.mem_filter.mpr ⟨h, hyA⟩)
  have hxmem' : x.name ∈ paramBoundObs [x.name, y.name] none y := by
    rw [hpy]
    rcases hxmem with h | h
    · exact List.mem_append_left _ (List.mem_filter.mpr ⟨h, hxA⟩)
    · exact List.mem_append_right _ (List.mem_filter.mpr ⟨h, hxA⟩)
  have hclx : isClassified [x.name, y.name] none x = true := by
    simp only [isClassified, Bool.not_eq_true']
    exact List.isEmpty_eq_false_iff_exists_mem.mpr ⟨y.name, hymem'⟩
  have hcly : isClassified [x.name, y.name] none y = true := by
    simp only [isClassified, Bool.not_eq_true']
    exact List.isEmpty_eq_false_iff_exists_mem.mpr ⟨x.name, hxmem'⟩
  have hys : y.name ∈ paramBoundObs [x.name, y.name] none x
      ++ paramBoundObs [x.name, y.name] none y :=
    List.mem_append_left _ hymem'
  have hxs : x.name ∈ paramBoundObs [x.name, y.name] none x
      ++ paramBoundObs [x.name, y.name] none y :=
    List.mem_append_right _ hxmem'
  rw [findInnerMostIntegration_eq_filters]
  simp only [servingRangeParamNames, List.map_cons, List.map_nil, List.flatMap_cons,
    List.flatMap_nil, List.append_nil, removeByNames, List.filter_cons, List.filter_nil,
    hclx, hcly]
  simp only [List.elem_iff, List.mem_append, Bool.not_eq_true]
  simp [hymem', hxmem']

/-- Claim C3: for a variable `y` with a fixed range and a variable `x`
whose range bounds are functions of `y`, `createIntegral` over
`{x, y}` (single range) succeeds and integrates `x` in an inner
integral nested inside the integral over `y` (inner-to-outer, with the
caller's normalization set only on the innermost integral); if instead
each of the two variables has a range parameterized by the other
(`yc`, circular dependency), the decomposition loop finds an empty
inner subset while variables remain pending and the construction
fails, returning a null (`none`) result rather than any integral
object. -/
theorem createIntegral_recursive_ranges (f : String) (nset : Option ℕ)
    (x y yc : Var) (lox hix loy hiy : List String)
    (hxy : x.name ≠ y.name) (hlvx : x.isLValue = true)
    (hxb : x.defaultBinning = Binning.parameterized lox hix)
    (lo hi : ℚ) (hyb : y.defaultBinning = Binning.fixedRange lo hi)
    (hymem : y.name ∈ lox ∨ y.name ∈ hix) (hxlo : x.name ∉ lox) (hxhi : x.name ∉ hix)
    (hycn : yc.name = y.name) (hlvyc : yc.isLValue = true)
    (hycb : yc.defaultBinning = Binning.parameterized loy hiy)
    (hxmem : x.name ∈ loy ∨ x.name ∈ hiy) :
    createIntegral f [x, y] nset none =
        Except.ok (some (IntObj.integral
          (IntObj.integral (IntObj.func f) [x] nset none) [y] none none))
      ∧ createIntegral f [x, yc] nset none = Except.ok none := by
  constructor
  · have h1 : findInnerMostIntegration [x, y] none = [x] :=
      findInner_pair_resolvable x y lox hix hxy hlvx hxb lo hi hyb hymem hxlo hxhi
    have h2 : removeByNames [x, y] [x.name] = [y] := by
      simp [removeByNames, List.filter_cons, List.contains_cons, beq_iff_eq, Ne.symm hxy]
    have h3 : findInnerMostIntegration [y] none = [y] := findInner_single_fixed y lo hi hyb
    have h4 : removeByNames [y] [y.name] = [] := by
      simp [removeByNames, List.filter_cons]
    simp [createIntegral, createIntObj, createIntObjLoop, h1, h2, h3, h4]
  · have h1 : findInnerMostIntegration [x, yc] none = [] :=
      findInner_pair_circular x yc lox hix loy hiy hlvx hlvyc hxb hycb
        (hycn ▸ hymem) hxmem
    simp [createIntegral, createIntObj, createIntObjLoop, h1]

/-- Witness for `createIntegral_recursive_ranges`: `x` with default
range `[lo(y), hi]` depending on `y`, `y` with fixed range `[0,1]`,
and the circular variant where `y`'s range depends on `x`. -/
theorem createIntegral_recursive_ranges_witness :
    (("x" : String) ≠ "y")
    ∧ ("y" ∈ (["y"] : List String) ∨ "y" ∈ ([] : List String))
    ∧ ("x" ∉ (["y"] : List String))
    ∧ ("x" ∈ (["x"] : List String) ∨ "x" ∈ ([] : List String))
    ∧ (createIntegral "f"
          [⟨"x", true, [], Binning.parameterized ["y"] []⟩,
           ⟨"y", true, [], Binning.fixedRange 0 1⟩] (some 5) none =
          Except.ok (some (IntObj.integral
            (IntObj.integral (IntObj.func "f")
              [⟨"x", true, [], Binning.parameterized ["y"] []⟩] (some 5) none)
            [⟨"y", true, [], Binning.fixedRange 0 1⟩] none none))
        ∧ createIntegral "f"
            [⟨"x", true, [], Binning.parameterized ["y"] []⟩,
             ⟨"y", true, [], Binning.parameterized ["x"] []⟩] (some 5) none =
          Except.ok none) :=
  ⟨by decide, by decide, by decide, by decide,
    createIntegral_recursive_ranges "f" (some 5)
      ⟨"x", true, [], Binning.parameterized ["y"] []⟩
      ⟨"y", true, [], Binning.fixedRange 0 1⟩
      ⟨"y", true, [], Binning.parameterized ["x"] []⟩
      ["y"] [] ["x"] []
      (by decide) rfl rfl 0 1 rfl (by decide) (by decide) (by decide)
      rfl rfl rfl (by decide)⟩

theorem agreesOffBuf_refl : ∀ (s : List Server) (b : Buffers), AgreesOffBuf s s b
  | [], _ => trivial
  | _ :: ss, [] => ⟨rfl, agreesOffBuf_refl ss []⟩
  | _ :: ss, _ :: bs => ⟨fun _ => rfl, agreesOffBuf_refl ss bs⟩

theorem agreesOffBuf_trans : ∀ (a b c : List Server) (buf : Buffers),
    AgreesOffBuf a b buf → AgreesOffBuf b c buf → AgreesOffBuf a c buf := by
  intro a
  induction a with
  | nil =>
    intro b c buf h1 h2
    cases b with
    | nil =>
      cases c with
      | nil => trivial
      | cons _ _ => cases buf <;> exact False.elim h2
    | cons _ _ => cases buf <;> exact False.elim h1
  | cons a as ih =>
    intro b c buf h1 h2
    cases b with
    | nil => cases buf <;> exact False.elim h1
    | cons b bs =>
      cases c with
      | nil => cases buf <;> exact False.elim h2
      | cons c cs =>
        cases buf with
        | nil => exact ⟨h1.1.trans h2.1, ih bs cs [] h1.2 h2.2⟩
        | cons u us => exact ⟨fun he => (h1.1 he).trans (h2.1 he), ih bs cs us h1.2 h2.2⟩

theorem agreesOffBuf_freeze : ∀ (s : List Server) (b : Buffers),
    AgreesOffBuf (freezeServers s b) s b := by
  intro s
  induction s with
  | nil => intro b; cases b <;> trivial
  | cons a as ih =>
    intro b
    cases b with
    | nil => exact ⟨rfl, ih []⟩
    | cons u us =>
      refine ⟨fun he => ?_, ih us⟩
      simp [freezeServers, he]

theorem agreesOffBuf_load : ∀ (s : List Server) (b : Buffers) (i : ℕ),
    AgreesOffBuf (loadEvent s b i) s b := by
  intro s
  induction s with
  | nil => intro b i; cases b <;> trivial
  | cons a as ih =>
    intro b i
    cases b with
    | nil => exact ⟨rfl, ih [] 0⟩
    | cons u us =>
      refine ⟨fun he => ?_, ih us i⟩
      simp [loadEvent, he]

theorem agreesOffBuf_doEvalLoop {ε : Type} (buffers : Buffers)
    (eval : List Server → Except ε ℚ) (orig : List Server) :
    ∀ (k i : ℕ) (cur : List Server) (acc : List ℚ),
    AgreesOffBuf cur orig buffers →
    AgreesOffBuf (doEvalLoop buffers eval cur i k acc).1 orig buffers := by
  intro k
  induction k with
  | zero => intro i cur acc h; exact h
  | succ k ih =>
    intro i cur acc h
    have hload : AgreesOffBuf (loadEvent cur buffers i) orig buffers :=
      agreesOffBuf_trans _ _ _ _ (agreesOffBuf_load cur buffers i) h
    simp only [doEvalLoop]
    cases eval (loadEvent cur buffers i) with
    | ok v => exact ih (i+1) _ (v :: acc) hload
    | error e => exact hload

theorem agreesOffBuf_nil_buffers : ∀ (a b : List Server),
    AgreesOffBuf a b [] → a = b := by
  intro a
  induction a with
  | nil =>
    intro b h
    cases b with
    | nil => rfl
    | cons _ _ => exact False.elim h
  | cons x xs ih =>
    intro b h
    cases b with
    | nil => exact False.elim h
    | cons y ys => rw [h.1, ih ys h.2]

theorem restore_of_agreesOffBuf : ∀ (cur orig : List Server) (buffers : Buffers),
    AgreesOffBuf cur orig buffers → restoreServers cur buffers orig = orig := by
  intro cur
  induction cur with
  | nil =>
    intro orig buffers h
    cases orig with
    | nil => cases buffers <;> rfl
    | cons _ _ => cases buffers <;> exact False.elim h
  | cons c cs ih =>
    intro orig buffers h
    cases orig with
    | nil => cases buffers <;> exact False.elim h
    | cons o os =>
      cases buffers with
      | nil => exact agreesOffBuf_nil_buffers _ _ h
      | cons u us =>
        by_cases he : u.isEmpty = true
        · simp [restoreServers, he, h.1 he, ih os us h.2]
        · simp [restoreServers, he, ih os us h.2]

/-- Claim C6: on every exit from the batch evaluation — normal
completion and propagated-exception exits alike (`eval` may return
`Except.error` at any event) — every server is left in exactly its
initial state: the buffered servers forced into always-clean mode are
restored to their snapshotted cached value, operating mode, and dirty
flags, and unbuffered servers are never touched, so `doEval` leaves no
observable change in any server. -/
theorem doEval_restores_servers {ε : Type} (servers : List Server) (buffers : Buffers)
    (eval : List Server → Except ε ℚ) (n : ℕ) :
    (doEval servers buffers eval n).1 = servers := by
  apply restore_of_agreesOffBuf
  exact agreesOffBuf_doEvalLoop buffers eval servers n 0 _ []
    (agreesOffBuf_freeze servers buffers)

theorem loadEvent_values_of_agreesOffBuf :
    ∀ (cur orig : List Server) (buffers : Buffers) (i : ℕ),
    AgreesOffBuf cur orig buffers →
    (loadEvent cur buffers i).map Server.value = scalarEventValues orig buffers i := by
  intro cur
  induction cur with
  | nil =>
    intro orig buffers i h
    cases orig with
    | nil => cases buffers <;> rfl
    | cons _ _ => cases buffers <;> exact False.elim h
  | cons c cs ih =>
    intro orig buffers i h
    cases orig with
    | nil => cases buffers <;> exact False.elim h
    | cons o os =>
      cases buffers with
      | nil =>
        have heq : (c :: cs) = (o :: os) := agreesOffBuf_nil_buffers _ _ h
        injection heq with h1 h2
        subst h1
        subst h2
        simp only [loadEvent, scalarEventValues, List.map_cons]
        rw [ih cs [] 0 (agreesOffBuf_refl cs [])]
      | cons u us =>
        by_cases he : u.isEmpty = true
        · simp only [loadEvent, scalarEventValues, he, if_true, List.map_cons, h.1 he]
          rw [ih os us i h.2]
        · simp only [loadEvent, scalarEventValues, he, Bool.false_eq_true, if_false,
            List.map_cons]
          rw [ih os us i h.2]

theorem doEvalLoop_outputs (buffers : Buffers) (evalF : List ℚ → ℚ) (orig : List Server) :
    ∀ (k i : ℕ) (cur : List Server) (acc : List ℚ),
    AgreesOffBuf cur orig buffers →
    (doEvalLoop buffers (fun ss => (Except.ok (evalF (ss.map Server.value)) : Except Unit ℚ))
        cur i k acc).2 =
      Except.ok (acc.reverse ++
        (List.range' i k).map fun j => evalF (scalarEventValues orig buffers j)) := by
  intro k
  induction k with
  | zero => intro i cur acc h; simp [doEvalLoop]
  | succ k ih =>
    intro i cur acc h
    have hload : AgreesOffBuf (loadEvent cur buffers i) orig buffers :=
      agreesOffBuf_trans _ _ _ _ (agreesOffBuf_load cur buffers i) h
    simp only [doEvalLoop]
    rw [ih (i+1) _ _ hload]
    rw [loadEvent_values_of_agreesOffBuf cur orig buffers i h]
    simp [List.range'_succ]

/-- Claim C5: for a node without a native vectorized evaluator, whose
scalar `evaluate()` is a pure function of its servers' cached values,
the batch evaluation writes at each output index `i` exactly the value
the scalar evaluation produces when every buffered server's cached
value is set to `buffer[min(i, buffer.length-1)]` of its buffer
(`scalarEventValues`; a length-1 buffer acts as a constant broadcast),
for every output size `n`. -/
theorem doEval_matches_scalar (servers : List Server) (buffers : Buffers)
    (evalF : List ℚ → ℚ) (n : ℕ) :
    (doEval servers buffers
        (fun ss => (Except.ok (evalF (ss.map Server.value)) : Except Unit ℚ)) n).2 =
      Except.ok ((List.range n).map fun i => evalF (scalarEventValues servers buffers i)) := by
  simp only [doEval]
  rw [doEvalLoop_outputs buffers evalF servers n 0 _ [] (agreesOffBuf_freeze servers buffers)]
  simp [List.range_eq_range']

theorem traceEval_fst (evalResult : DVal) (log : EvalErrorLog) :
    (traceEval evalResult log).1 = evalResult := by
  unfold traceEval
  split <;> rfl


/-- Claim C7, counterexample: a node in `AlwaysDirty` operating mode
(the caching-bypass mode the spec itself documents) recomputes on
every `getValV` call: two successive calls with no mutation in between
invoke `evaluate()` twice — once each — so "`evaluate()` is invoked at
most once across the two calls" fails for it. -/
theorem getValV_adirty_reevaluates :
    ¬ ((getValV (getValV adirtyNode emptyPrintLog none (DVal.fin 5) true).state
          (getValV adirtyNode emptyPrintLog none (DVal.fin 5) true).log
          none (DVal.fin 5) true).ret
        = (getValV adirtyNode emptyPrintLog none (DVal.fin 5) true).ret
      ∧ (getValV adirtyNode emptyPrintLog none (DVal.fin 5) true).evalCount
          + (getValV (getValV adirtyNode emptyPrintLog none (DVal.fin 5) true).state
              (getValV adirtyNode emptyPrintLog none (DVal.fin 5) true).log
              none (DVal.fin 5) true).evalCount ≤ 1) := by
  intro hcl
  have h2 := hcl.2
  rw [show (getValV adirtyNode emptyPrintLog none (DVal.fin 5) true).evalCount = 1
    from rfl] at h2
  rw [show (getValV (getValV adirtyNode emptyPrintLog none (DVal.fin 5) true).state
      (getValV adirtyNode emptyPrintLog none (DVal.fin 5) true).log
      none (DVal.fin 5) true).evalCount = 1 from rfl] at h2
  exact absurd h2 (by norm_num)

/-- Claim C7 (amended): for every node *not in `AlwaysDirty` operating
mode* on which no mutation occurs between two successive `getValV`
calls with the same normalization set, the second call returns a value
bit-identical to the first and `evaluate()` is invoked at most once
across the two calls — the second call serves the cached value. -/
theorem getValV_cached_idempotent (s : NodeState) (log : EvalErrorLog) (nset : Option ℕ)
    (evalResult : DVal) (hideOff : Bool) (h : s.operMode ≠ OperMode.adirty) :
    (getValV (getValV s log nset evalResult hideOff).state
          (getValV s log nset evalResult hideOff).log nset evalResult hideOff).ret
        = (getValV s log nset evalResult hideOff).ret
      ∧ (getValV s log nset evalResult hideOff).evalCount
        + (getValV (getValV s log nset evalResult hideOff).state
            (getValV s log nset evalResult hideOff).log nset evalResult hideOff).evalCount
          ≤ 1 := by
  obtain ⟨v, vd, om, ln, ov⟩ := s
  cases om with
  | adirty => exact absurd rfl h
  | aclean =>
    cases nset with
    | none => simp [getValV, isValueDirtyAndClear]
    | some id =>
      by_cases hid : id = ln
      · simp [getValV, isValueDirtyAndClear, hid]
      · simp [getValV, isValueDirtyAndClear, hid]
  | auto =>
    cases vd with
    | false =>
      cases nset with
      | none => simp [getValV, isValueDirtyAndClear]
      | some id =>
        by_cases hid : id = ln
        · simp [getValV, isValueDirtyAndClear, hid]
        · simp [getValV, isValueDirtyAndClear, hid]
    | true =>
      cases nset with
      | none => simp [getValV, isValueDirtyAndClear, traceEval_fst]
      | some id =>
        by_cases hid : id = ln
        · simp [getValV, isValueDirtyAndClear, hid, traceEval_fst]
        · simp [getValV, isValueDirtyAndClear, hid, traceEval_fst]

/-- Witness for `getValV_cached_idempotent` at a concrete dirty
`Auto`-mode node. -/
theorem getValV_cached_idempotent_witness :
    (autoDirtyNode.operMode ≠ OperMode.adirty)
    ∧ ((getValV (getValV autoDirtyNode emptyCollectLog (some 3) (DVal.fin 5) true).state
          (getValV autoDirtyNode emptyCollectLog (some 3) (DVal.fin 5) true).log
          (some 3) (DVal.fin 5) true).ret
        = (getValV autoDirtyNode emptyCollectLog (some 3) (DVal.fin 5) true).ret
      ∧ (getValV autoDirtyNode emptyCollectLog (some 3) (DVal.fin 5) true).evalCount
          + (getValV (getValV autoDirtyNode emptyCollectLog (some 3) (DVal.fin 5) true).state
              (getValV autoDirtyNode emptyCollectLog (some 3) (DVal.fin 5) true).log
              (some 3) (DVal.fin 5) true).evalCount ≤ 1) :=
  ⟨by decide,
    getValV_cached_idempotent autoDirtyNode emptyCollectLog (some 3) (DVal.fin 5) true
      (by decide)⟩

/-- Claim C8: when `evaluate()` produces NaN during recomputation (a
dirty `Auto`-mode node, reached through `getValV`), an evaluation
error is logged through the process-wide error log according to the
current logging mode — incremented counter in `CountErrors` mode,
stored message in `CollectErrors` mode, immediate print in
`PrintErrors` mode, dropped in `Ignore` mode — nothing is thrown (the
embedded `traceEval` and `logEvalError` are total functions), and
evaluation continues: the NaN value is still cached and returned to
the caller. -/
theorem traceEval_nan_logged (s : NodeState) (log : EvalErrorLog) (nset : Option ℕ)
    (hideOff : Bool) (hmode : s.operMode = OperMode.auto) (hdirty : s.valueDirty = true)
    (hguard : log.inLogEvalError = false) :
    (getValV s log nset DVal.nan hideOff).ret = DVal.nan
    ∧ (getValV s log nset DVal.nan hideOff).state.value = DVal.nan
    ∧ (getValV s log nset DVal.nan hideOff).log = logEvalError log "function value is NAN"
    ∧ (log.mode = ErrorLoggingMode.countErrors →
        (getValV s log nset DVal.nan hideOff).log = { log with count := log.count + 1 })
    ∧ (log.mode = ErrorLoggingMode.ignore →
        (getValV s log nset DVal.nan hideOff).log = log)
    ∧ (log.mode = ErrorLoggingMode.printErrors →
        (getValV s log nset DVal.nan hideOff).log =
          { log with printed := log.printed ++ ["function value is NAN"] })
    ∧ (log.mode = ErrorLoggingMode.collectErrors → log.errorList.length < 2048 →
        (getValV s log nset DVal.nan hideOff).log =
          { log with errorList := log.errorList ++ ["function value is NAN"] }) := by
  obtain ⟨v, vd, om, ln, ov⟩ := s
  cases hmode
  cases hdirty
  have hlog : (getValV ⟨v, true, OperMode.auto, ln, ov⟩ log nset DVal.nan hideOff).log =
      logEvalError log "function value is NAN" := by
    cases nset with
    | none => simp [getValV, isValueDirtyAndClear, traceEval, DVal.isNaN]
    | some id =>
      by_cases hid : id = ln
      · simp [getValV, isValueDirtyAndClear, traceEval, DVal.isNaN, hid]
      · simp [getValV, isValueDirtyAndClear, traceEval, DVal.isNaN, hid]
  have hret : (getValV ⟨v, true, OperMode.auto, ln, ov⟩ log nset DVal.nan hideOff).ret =
        DVal.nan
      ∧ (getValV ⟨v, true, OperMode.auto, ln, ov⟩ log nset DVal.nan
          hideOff).state.value = DVal.nan := by
    cases nset with
    | none =>
      cases hideOff <;>
        simp [getValV, isValueDirtyAndClear, traceEval_fst, DVal.addOffset]
    | some id =>
      by_cases hid : id = ln <;> cases hideOff <;>
        simp [getValV, isValueDirtyAndClear, traceEval_fst, DVal.addOffset, hid]
  refine ⟨hret.1, hret.2, hlog, ?_, ?_, ?_, ?_⟩
  · intro hm
    rw [hlog]
    simp [logEvalError, hm]
  · intro hm
    rw [hlog]
    simp [logEvalError, hm]
  · intro hm
    rw [hlog]
    simp [logEvalError, hm, hguard]
  · intro hm hlen
    rw [hlog, logEvalError]
    simp [hm, hguard, not_le.mpr hlen]

/-- Witness for `traceEval_nan_logged`: a dirty `Auto`-mode node with
NaN evaluation and an empty `CollectErrors`-mode log. -/
theorem traceEval_nan_logged_witness :
    (autoDirtyNode.operMode = OperMode.auto)
    ∧ (autoDirtyNode.valueDirty = true)
    ∧ (emptyCollectLog.inLogEvalError = false)
    ∧ ((getValV autoDirtyNode emptyCollectLog none DVal.nan true).ret = DVal.nan
      ∧ (getValV autoDirtyNode emptyCollectLog none DVal.nan true).state.value = DVal.nan
      ∧ (getValV autoDirtyNode emptyCollectLog none DVal.nan true).log =
          logEvalError emptyCollectLog "function value is NAN"
      ∧ (emptyCollectLog.mode = ErrorLoggingMode.countErrors →
          (getValV autoDirtyNode emptyCollectLog none DVal.nan true).log =
            { emptyCollectLog with count := emptyCollectLog.count + 1 })
      ∧ (emptyCollectLog.mode = ErrorLoggingMode.ignore →
          (getValV autoDirtyNode emptyCollectLog none DVal.nan true).log = emptyCollectLog)
      ∧ (emptyCollectLog.mode = ErrorLoggingMode.printErrors →
          (getValV autoDirtyNode emptyCollectLog none DVal.nan true).log =
            { emptyCollectLog with
              printed := emptyCollectLog.printed ++ ["function value is NAN"] })
      ∧ (emptyCollectLog.mode = ErrorLoggingMode.collectErrors →
          emptyCollectLog.errorList.length < 2048 →
          (getValV autoDirtyNode emptyCollectLog none DVal.nan true).log =
            { emptyCollectLog with
              errorList := emptyCollectLog.errorList ++ ["function value is NAN"] })) :=
  ⟨rfl, rfl, rfl, traceEval_nan_logged autoDirtyNode emptyCollectLog none true rfl rfl rfl⟩

/-- Claim C9, counterexample: with the fast path active, cached value
1 and recomputed value 2 differ by a relative deviation of 1 — vastly
beyond the 1e-9 tolerance — yet `_DEBUG_getVal` raises no error and
returns normally, because the code's check
`(ret - fullEval)/ret > 1.E-9` is *signed*: a recomputed value larger
than the (positive) returned value makes the quotient negative and the
check false. -/
theorem debugGetVal_signed_check_counterexample :
    |((1 : ℚ) - 2) / 1| > 1 / 1000000000
    ∧ debugGetVal true false (DVal.fin 1) (DVal.fin 2) = Except.ok (DVal.fin 1) := by
  constructor
  · norm_num
  · norm_num [debugGetVal]

/-- Claim C9 (amended): `_DEBUG_getVal` raises its fatal consistency
error (`CachingError`) exactly when the fast path is active and the
*signed* relative deviation `(ret − fullEval)/ret` (the absolute
deviation when `ret = 0`) of the two finite values exceeds 1e-9; when
the two values agree to within the relative tolerance — and also
whenever the mismatch has the opposite sign — the call returns
normally. -/
theorem debugGetVal_characterization (fast inhibitDirty : Bool) (r f : ℚ) :
    (debugGetVal fast inhibitDirty (DVal.fin r) (DVal.fin f) =
        Except.error CachingErr.mismatch ↔
      (fast = true ∧ inhibitDirty = false
        ∧ (if r ≠ 0 then (r - f) / r else r - f) > 1 / 1000000000))
    ∧ (∀ ret : ℚ, ret = (if fast && !inhibitDirty then r else f) →
        |ret - f| ≤ |ret| / 1000000000 →
        debugGetVal fast inhibitDirty (DVal.fin r) (DVal.fin f) =
          Except.ok (DVal.fin ret)) := by
  have hnotfast : (fast && !inhibitDirty) = false →
      debugGetVal fast inhibitDirty (DVal.fin r) (DVal.fin f) = Except.ok (DVal.fin f) := by
    intro h
    simp only [debugGetVal, h, Bool.false_eq_true, if_false]
    have hz : (if f ≠ 0 then (f - f) / f else f - f) = 0 := by
      by_cases hg : f = 0 <;> simp [hg]
    rw [hz]
    norm_num
  constructor
  · by_cases hfast : (fast && !inhibitDirty) = true
    · have hf1 : fast = true ∧ inhibitDirty = false := by
        constructor <;> revert hfast <;> cases fast <;> cases inhibitDirty <;> simp
      simp only [debugGetVal, hfast, if_true]
      by_cases hC : (if r ≠ 0 then (r - f) / r else r - f) > 1 / 1000000000
      · rw [if_pos hC]
        exact iff_of_true rfl ⟨hf1.1, hf1.2, hC⟩
      · rw [if_neg hC]
        exact iff_of_false (by simp) (fun hcl => hC hcl.2.2)
    · have hf0 : (fast && !inhibitDirty) = false := by
        simpa using hfast
      rw [hnotfast hf0]
      constructor
      · intro h
        cases h
      · rintro ⟨h1, h2, -⟩
        subst h1
        subst h2
        simp at hf0
  · intro ret hret htol
    by_cases hfast : (fast && !inhibitDirty) = true
    · rw [hfast] at hret
      simp only [if_true] at hret
      subst hret
      simp only [debugGetVal, hfast, if_true]
      have hcond : ¬ ((if ret ≠ 0 then (ret - f) / ret else ret - f) > 1 / 1000000000) := by
        by_cases hr : ret = 0
        · subst hr
          have h0 : |(0 : ℚ) - f| ≤ 0 := by simpa using htol
          have hf : f = 0 := by
            have := abs_nonpos_iff.mp h0
            linarith
          subst hf
          norm_num
        · rw [if_pos hr]
          have habs : (0 : ℚ) < |ret| := abs_pos.mpr hr
          have h1 : (ret - f) / ret ≤ |ret - f| / |ret| := by
            calc (ret - f) / ret ≤ |(ret - f) / ret| := le_abs_self _
              _ = |ret - f| / |ret| := abs_div _ _
          have h2 : |ret - f| / |ret| ≤ (|ret| / 1000000000) / |ret| :=
            (div_le_div_iff_of_pos_right habs).mpr htol
          have h3 : (|ret| / 1000000000) / |ret| = 1 / 1000000000 := by
            field_simp
            ring
          exact not_lt.mpr (h1.trans (h2.trans_eq h3))
      rw [if_neg hcond]
    · have hf0 : (fast && !inhibitDirty) = false := by
        simpa using hfast
      rw [hf0] at hret
      simp only [Bool.false_eq_true, if_false] at hret
      subst hret
      exact hnotfast hf0

/-- Witness for `debugGetVal_characterization`: values agreeing within
the tolerance return normally through the fast path. -/
theorem debugGetVal_characterization_witness :
    ((1 : ℚ) = (if true && !false then (1 : ℚ) else 1 + 1 / 10000000000))
    ∧ |(1 : ℚ) - (1 + 1 / 10000000000)| ≤ |(1 : ℚ)| / 1000000000
    ∧ debugGetVal true false (DVal.fin 1) (DVal.fin (1 + 1 / 10000000000)) =
        Except.ok (DVal.fin 1) :=
  ⟨by norm_num,
    by
      rw [show ((1:ℚ) - (1 + 1 / 10000000000)) = -(1/10000000000) by ring, abs_neg,
        abs_of_nonneg (by norm_num : (0:ℚ) ≤ 1/10000000000)]
      norm_num,
    (debugGetVal_characterization true false 1 (1 + 1 / 10000000000)).2 1 (by norm_num)
      (by
        rw [show ((1:ℚ) - (1 + 1 / 10000000000)) = -(1/10000000000) by ring, abs_neg,
          abs_of_nonneg (by norm_num : (0:ℚ) ≤ 1/10000000000)]
        norm_num)⟩

theorem selectParamsAux_own (nodeName : String) (params : List NodePar)
    (evalFn : List NodePar → ℝ) (p : FitPar) (hp : p.name = nodeName) (post : List FitPar) :
    ∀ (pre : List FitPar) (k : ℕ),
    (∀ q ∈ pre, q.name ≠ nodeName ∧ params.find? (fun np => np.name == q.name) = none) →
    selectParamsAux ⟨nodeName, params, evalFn⟩ (List.enumFrom k (pre ++ p :: post)) =
      Except.ok (ParamSelection.ownError p.err) := by
  intro pre
  induction pre with
  | nil =>
    intro k hpre
    simp only [List.nil_append, List.enumFrom, selectParamsAux, hp, if_pos]
  | cons q pre ih =>
    intro k hpre
    have hq := hpre q (List.mem_cons_self q pre)
    simp only [List.cons_append, List.enumFrom, selectParamsAux]
    rw [if_neg hq.1]
    by_cases herr : q.err ≤ |q.val| * dblEps
    · rw [if_pos herr]
      exact ih (k + 1) fun r hr => hpre r (List.mem_cons_of_mem q hr)
    · rw [if_neg herr]
      rw [hq.2]
      exact ih (k + 1) fun r hr => hpre r (List.mem_cons_of_mem q hr)

/-- Claim C10: when the node on which `getPropagatedError` is called
is itself one of the fit result's floated parameters (matched by name
identity; being a plain parameter, the node depends on no *other*
floated parameter), the function returns that parameter's fitted error
from the fit result directly: the result equals the fitted error for
*every* covariance matrix and *every* node evaluation function, so no
parameter variation, no covariance-matrix reduction and no
re-evaluation of the node takes place. -/
theorem getPropagatedError_own_parameter (nodeName : String) (params : List NodePar)
    (pre post : List FitPar) (p : FitPar) (hp : p.name = nodeName)
    (hpre : ∀ q ∈ pre, q.name ≠ nodeName ∧
      params.find? (fun np => np.name == q.name) = none) :
    ∀ (evalFn : List NodePar → ℝ) (cov : ℕ → ℕ → ℝ),
    getPropagatedError ⟨nodeName, params, evalFn⟩ (pre ++ p :: post) cov =
      Except.ok p.err := by
  intro evalFn cov
  have hsel := selectParamsAux_own nodeName params evalFn p hp post pre 0 hpre
  simp only [getPropagatedError, List.enum, hsel]

/-- Witness for `getPropagatedError_own_parameter`: the node is the
floated parameter `a` itself (fit error 0.1), preceded in
`floatParsFinal` by an unrelated parameter `b` the node does not
depend on. -/
theorem getPropagatedError_own_parameter_witness :
    ((⟨"a", 2, 1 / 10⟩ : FitPar).name = "a")
    ∧ (∀ q ∈ ([⟨"b", 1, 1 / 2⟩] : List FitPar), q.name ≠ "a" ∧
        ([⟨"a", 2, -10, 10⟩] : List NodePar).find? (fun np => np.name == q.name) = none)
    ∧ getPropagatedError ⟨"a", [⟨"a", 2, -10, 10⟩], fun _ => 0⟩
        ([⟨"b", 1, 1 / 2⟩] ++ ⟨"a", 2, 1 / 10⟩ :: []) (fun _ _ => 0) =
      Except.ok (1 / 10) :=
  ⟨rfl,
    by
      intro q hq
      rcases (by simpa using hq : q = ⟨"b", 1, 1 / 2⟩) with rfl
      exact ⟨by decide, rfl⟩,
    getPropagatedError_own_parameter "a" [⟨"a", 2, -10, 10⟩] [⟨"b", 1, 1 / 2⟩] []
      ⟨"a", 2, 1 / 10⟩ rfl
      (by
        intro q hq
        rcases (by simpa using hq : q = ⟨"b", 1, 1 / 2⟩) with rfl
        exact ⟨by decide, rfl⟩)
      (fun _ => 0) (fun _ _ => 0)⟩

theorem selectParamsAux_no_own (node : RNode) :
    ∀ (l : List FitPar), (∀ q ∈ l, q.name ≠ node.name) →
    (∀ q ∈ l, ∀ np, node.params.find? (fun x => x.name == q.name) = some np →
      |np.val - q.val| ≤ (1 / 100) * q.err) →
    ∀ k, selectParamsAux node (List.enumFrom k l) =
      Except.ok (ParamSelection.selected ((List.enumFrom k l).filterMap fun ip =>
        if ip.2.err ≤ |ip.2.val| * dblEps then none
        else (node.params.find? (fun np => np.name == ip.2.name)).map fun np =>
          (np, ip.1))) := by
  intro l
  induction l with
  | nil => intro _ _ k; rfl
  | cons q l ih =>
    intro hname hcons k
    have hq : q.name ≠ node.name := hname q (List.mem_cons_self q l)
    have ihk := ih (fun r hr => hname r (List.mem_cons_of_mem q hr))
      (fun r hr => hcons r (List.mem_cons_of_mem q hr)) (k + 1)
    simp only [List.enumFrom, selectParamsAux, List.filterMap_cons]
    rw [if_neg hq]
    by_cases herr : q.err ≤ |q.val| * dblEps
    · rw [if_pos herr, ihk]
      simp [herr]
    · rw [if_neg herr]
      cases hfind : node.params.find? (fun x => x.name == q.name) with
      | none =>
        dsimp only
        rw [ihk]
        simp [herr, hfind]
      | some np =>
        dsimp only
        rw [if_neg (not_lt.mpr (hcons q (List.mem_cons_self q l) np hfind))]
        rw [ihk]
        simp [herr, hfind]

theorem getD_map_range (m j : ℕ) (h : j < m) (f : ℕ → ℝ) :
    ((List.range m).map f).getD j 0 = f j := by
  rw [List.getD_eq_getElem?_getD]
  rw [List.getElem?_map]
  rw [List.getElem?_range h]
  rfl

theorem covLinear_symm (cov : ℕ → ℕ → ℝ) (hsym : ∀ i j, cov i j = cov j i)
    (frPars : List FitPar) (sel : List (NodePar × ℕ)) (a b : ℕ) :
    covLinear cov frPars sel a b = covLinear cov frPars sel b a := by
  unfold covLinear covSub
  split
  · exact hsym a b
  · exact hsym _ _

theorem ite_corr_eq (V : ℕ → ℕ → ℝ) (hV : ∀ a b, V a b = V b a) (i j : ℕ) :
    (if i ≤ j then V i j / Real.sqrt (V i i * V j j)
      else V j i / Real.sqrt (V j j * V i i)) = corrMatrix V i j := by
  by_cases h : i ≤ j
  · rw [if_pos h]
    rfl
  · rw [if_neg h, corrMatrix, hV j i, mul_comm (V j j) (V i i)]

/-- Claim C4: for every fit result and covariance matrix satisfying
the consistency preconditions — the node is not itself a floated
parameter, and every floated parameter the node depends on (with
nonzero uncertainty) has its current value within 1% of its
uncertainty of the fit result's value — `getPropagatedError` returns
`sqrt(F^T · C · F)`, where `F_i = (plus_i − minus_i)/2` with `plus_i`
and `minus_i` the node's values at the `i`-th selected parameter's
central value plus and minus `sqrt(Cov_ii)` (each clipped to the
parameter's legal range), and `C_ij = Cov_ij / sqrt(Cov_ii · Cov_jj)`,
`Cov` being the (possibly reduced) covariance matrix for the selected
parameter subset. -/
theorem getPropagatedError_linear (node : RNode) (frPars : List FitPar)
    (cov : ℕ → ℕ → ℝ) (hsym : ∀ i j, cov i j = cov j i)
    (hname : ∀ q ∈ frPars, q.name ≠ node.name)
    (hcons : ∀ q ∈ frPars, ∀ np,
      node.params.find? (fun x => x.name == q.name) = some np →
      |np.val - q.val| ≤ (1 / 100) * q.err) :
    getPropagatedError node frPars cov =
      Except.ok (Real.sqrt
        (∑ i ∈ Finset.range (linearSelected node frPars).length,
          variationF node (covLinear cov frPars (linearSelected node frPars))
              (linearSelected node frPars) i *
            ∑ j ∈ Finset.range (linearSelected node frPars).length,
              corrMatrix (covLinear cov frPars (linearSelected node frPars)) i j *
                variationF node (covLinear cov frPars (linearSelected node frPars))
                  (linearSelected node frPars) j)) := by
  have hsel : selectParamsAux node frPars.enum =
      Except.ok (ParamSelection.selected (linearSelected node frPars)) :=
    selectParamsAux_no_own node frPars hname hcons 0
  simp only [getPropagatedError, hsel]
  refine congrArg (fun s => Except.ok (Real.sqrt s)) ?_
  refine Finset.sum_congr rfl fun i hi => ?_
  have him := Finset.mem_range.mp hi
  rw [getD_map_range _ _ him, getD_map_range _ _ him]
  refine congrArg₂ (· * ·) ?_ ?_
  · rw [variationF, plusVariation, minusVariation, mul_one_div]
    rfl
  · refine Finset.sum_congr rfl fun j hj => ?_
    have hjm := Finset.mem_range.mp hj
    rw [getD_map_range _ _ hjm, getD_map_range _ _ hjm]
    refine congrArg₂ (· * ·) ?_ ?_
    · exact ite_corr_eq (covLinear cov frPars (linearSelected node frPars))
        (covLinear_symm cov hsym frPars (linearSelected node frPars)) i j
    · rw [variationF, plusVariation, minusVariation, mul_one_div]
      rfl

/-- Witness for `getPropagatedError_linear`: the spec's concrete
scenario — a node `f = a·x` with `a = 2.0 ± 0.1` uncorrelated and `x`
fixed at 3.0 — yields exactly 0.3 (`= |x| · σ_a`). -/
theorem getPropagatedError_linear_witness :
    (∀ i j : ℕ, (fun _ _ => (1 / 100 : ℝ)) i j = (fun _ _ => (1 / 100 : ℝ)) j i)
    ∧ (∀ q ∈ ([⟨"a", 2, 1 / 10⟩] : List FitPar),
        q.name ≠ (⟨"f", [⟨"a", 2, -10, 10⟩],
          fun ps => (ps.headD default).val * 3⟩ : RNode).name)
    ∧ (∀ q ∈ ([⟨"a", 2, 1 / 10⟩] : List FitPar), ∀ np,
        (⟨"f", [⟨"a", 2, -10, 10⟩],
          fun ps => (ps.headD default).val * 3⟩ : RNode).params.find?
            (fun x => x.name == q.name) = some np →
        |np.val - q.val| ≤ (1 / 100) * q.err)
    ∧ getPropagatedError
        ⟨"f", [⟨"a", 2, -10, 10⟩], fun ps => (ps.headD default).val * 3⟩
        [⟨"a", 2, 1 / 10⟩] (fun _ _ => 1 / 100) = Except.ok (3 / 10) := by
  have hname : ∀ q ∈ ([⟨"a", 2, 1 / 10⟩] : List FitPar),
      q.name ≠ (⟨"f", [⟨"a", 2, -10, 10⟩],
        fun ps => (ps.headD default).val * 3⟩ : RNode).name := by
    intro q hq
    rcases (by simpa using hq : q = ⟨"a", 2, 1 / 10⟩) with rfl
    decide
  have hcons : ∀ q ∈ ([⟨"a", 2, 1 / 10⟩] : List FitPar), ∀ np,
      (⟨"f", [⟨"a", 2, -10, 10⟩],
        fun ps => (ps.headD default).val * 3⟩ : RNode).params.find?
          (fun x => x.name == q.name) = some np →
      |np.val - q.val| ≤ (1 / 100) * q.err := by
    intro q hq np hfind
    rcases (by simpa using hq : q = ⟨"a", 2, 1 / 10⟩) with rfl
    have : some (⟨"a", 2, -10, 10⟩ : NodePar) = some np := by
      rw [← hfind]
      rfl
    injection this with hnp
    subst hnp
    norm_num
  refine ⟨by intro i j; rfl, hname, hcons, ?_⟩
  rw [getPropagatedError_linear _ _ _ (by intro i j; rfl) hname hcons]
  have hsel : linearSelected
      ⟨"f", [⟨"a", 2, -10, 10⟩], fun ps => (ps.headD default).val * 3⟩
      [⟨"a", 2, 1 / 10⟩] = [(⟨"a", 2, -10, 10⟩, 0)] := by
    simp [linearSelected, List.enum, List.enumFrom, List.filterMap_cons, List.find?]
    rw [if_neg (show ¬ ((10 : ℝ)⁻¹ ≤ 2 * dblEps) by rw [dblEps]; norm_num)]
  rw [hsel]
  have hV : covLinear (fun _ _ => (1 / 100 : ℝ)) [⟨"a", 2, 1 / 10⟩]
      [(⟨"a", 2, -10, 10⟩, 0)] = fun _ _ => (1 / 100 : ℝ) := by
    simp [covLinear]
  rw [hV]
  have h1 : Real.sqrt ((1 : ℝ) / 100) = 1 / 10 := by
    rw [show (1 / 100 : ℝ) = (1 / 10) ^ 2 by norm_num]
    exact Real.sqrt_sq (by norm_num)
  have hvF : variationF ⟨"f", [⟨"a", 2, -10, 10⟩], fun ps => (ps.headD default).val * 3⟩
      (fun _ _ => (1 / 100 : ℝ)) [(⟨"a", 2, -10, 10⟩, 0)] 0 = 3 / 10 := by
    unfold variationF plusVariation minusVariation
    simp only [List.getD_cons_zero]
    rw [h1]
    rw [show ((⟨"a", 2, -10, 10⟩ : NodePar).val + 1 / 10) = 21 / 10 by norm_num]
    rw [show ((⟨"a", 2, -10, 10⟩ : NodePar).val - 1 / 10) = 19 / 10 by norm_num]
    rw [show min (21 / 10 : ℝ) (⟨"a", 2, -10, 10⟩ : NodePar).vmax = 21 / 10 by
      rw [min_eq_left (by norm_num)]]
    rw [show max (19 / 10 : ℝ) (⟨"a", 2, -10, 10⟩ : NodePar).vmin = 19 / 10 by
      rw [max_eq_left (by norm_num)]]
    simp [setParamVal]
    norm_num
  have hcM : corrMatrix (fun _ _ => (1 / 100 : ℝ)) 0 0 = 1 := by
    unfold corrMatrix
    rw [show ((1 : ℝ) / 100 * (1 / 100)) = (1 / 100) ^ 2 by ring,
      Real.sqrt_sq (by norm_num)]
    norm_num
  rw [show ([((⟨"a", 2, -10, 10⟩ : NodePar), 0)] : List (NodePar × ℕ)).length = 1 from rfl]
  rw [Finset.sum_range_one, Finset.sum_range_one, hvF, hcM]
  rw [show (3 / 10 : ℝ) * (1 * (3 / 10)) = (3 / 10) ^ 2 by ring]
  rw [Real.sqrt_sq (by norm_num)]

end RooFitModel
